import Mathlib

/-!
Shallow embedding of Envoy's thread-local storage registry
(`source/common/thread_local/thread_local_impl.cc`).

The registry (`InstanceImpl`) is driven from the main thread.  Worker
threads are identified by their dispatchers, which we model as natural
numbers.  A thread's thread-local storage (`ThreadLocalData::data_`, a
vector of nullable shared pointers) is modelled as `List (Option α)`,
where `α` is the opaque stored-object type and `none` is a null
`ThreadLocalObjectSharedPtr`.

Cross-thread effects go through `Dispatcher::post`.  We model a broadcast
as the ordered list of actions the C++ function performs, in program
order: posting a callback to a worker dispatcher, or running the callback
synchronously on the main thread.  A callback is modelled by its effect
on the executing thread's cell vector.

Fatal `ASSERT` precondition failures are modelled by returning `none`
from the operation.
-/

namespace Envoy
namespace ThreadLocal

/-- The three lifecycle states of `InstanceImpl` (`State::Initializing`,
`State::Running`, `State::Shutdown`). -/
inductive State where
  | Initializing : State
  | Running : State
  | Shutdown : State
deriving DecidableEq, Repr

/-- Numeric rank of a lifecycle state, used to express monotonicity
(Initializing before Running before Shutdown). -/
def State.rank : State → Nat
  | .Initializing => 0
  | .Running => 1
  | .Shutdown => 2

/-- A slot handle (`InstanceImpl::SlotImpl`).  `index` is the slot index,
immutable once assigned.  `id` models object identity of the heap-allocated
`SlotImpl` (each `new SlotImpl(...)` yields a fresh `id`), so that distinct
live handles can be told apart. -/
structure SlotImpl where
  id : Nat
  index : Nat
deriving DecidableEq, Repr

/-- The registry (`InstanceImpl`).  `slots` is the `slots_` vector of
nullable back-pointers to live slot handles; `free_slot_indexes` is the
`free_slot_indexes_` FIFO list (front = oldest freed); `registered_threads`
is the ordered list of registered worker dispatchers; `main_dispatcher`
is `main_thread_dispatcher_` (null until the main thread registers);
`nextId` is the ghost counter backing `SlotImpl.id` freshness. -/
structure InstanceImpl where
  state : State
  slots : List (Option SlotImpl)
  free_slot_indexes : List Nat
  registered_threads : List Nat
  main_dispatcher : Option Nat
  nextId : Nat
deriving DecidableEq, Repr

/-- One step a broadcast performs, in program order: `postWorker d f`
models `dispatcher_d.post(cb)` where `f` is `cb`'s effect on the executing
thread's cell vector; `runMain f` models running `cb()` synchronously on
the main thread. -/
inductive BAction (α : Type) where
  | postWorker : Nat → (List (Option α) → List (Option α)) → BAction α
  | runMain : (List (Option α) → List (Option α)) → BAction α

/-- True for the `runMain` action. -/
def BAction.isRunMain : BAction α → Bool
  | .runMain _ => true
  | _ => false

/-- True for a `postWorker` action. -/
def BAction.isPostWorker : BAction α → Bool
  | .postWorker _ _ => true
  | _ => false

/-- Model of `InstanceImpl::setThreadLocal(index, object)`: if the executing
thread's cell vector has size at most `index`, resize it to `index + 1`
(new cells are default-constructed, i.e. null); then store `object` at
position `index`. -/
def setThreadLocal (index : Nat) (object : Option α) (data : List (Option α)) :
    List (Option α) :=
  let grown :=
    if data.length ≤ index then
      data ++ List.replicate (index + 1 - data.length) none
    else data
  grown.set index object

/-- Effect on one thread's cells of the callback `removeSlot` broadcasts:
`if (index < data_.size()) data_[index] = nullptr`. -/
def clearCell (index : Nat) (data : List (Option α)) : List (Option α) :=
  if index < data.length then data.set index none else data

/-- Fire-and-forget `InstanceImpl::runOnAllThreads(cb)`: fatal unless the
state is not Shutdown; posts `cb` to every registered worker dispatcher in
registration order, and then runs `cb()` on the main thread. -/
def runOnAllThreads (inst : InstanceImpl) (cb : List (Option α) → List (Option α)) :
    Option (List (BAction α)) :=
  if inst.state = State.Shutdown then none
  else
    some (inst.registered_threads.map (fun d => BAction.postWorker d cb) ++
      [BAction.runMain cb])

/-- The reference-counted completion guard (`cb_guard`) of the
with-completion `runOnAllThreads`.  `count` is the shared-pointer use
count; `completionsPosted` counts how many times the custom deleter has
run `main_thread_dispatcher_->post(all_threads_complete_cb)`. -/
structure GuardState where
  count : Nat
  completionsPosted : Nat
deriving DecidableEq, Repr

/-- Dropping one reference to the completion guard.  When the count
reaches zero the deleter fires and posts the completion callback to the
main dispatcher. -/
def releaseGuard (g : GuardState) : GuardState :=
  let c := g.count - 1
  { count := c
    completionsPosted :=
      if c = 0 then g.completionsPosted + 1 else g.completionsPosted }

/-- Execution of `k` workers, each executing (and then destroying) their posted copy of
the guarded callback, each dropping one guard reference. -/
def runWorkers : Nat → GuardState → GuardState
  | 0, g => g
  | k + 1, g => runWorkers k (releaseGuard g)

/-- With-completion `InstanceImpl::runOnAllThreads(cb, all_threads_complete_cb)`:
fatal unless the state is not Shutdown.  Runs `cb()` on the main thread
first, then creates the guard (use count 1), posts a guard-capturing copy
to every registered worker (one reference each), and on return releases
the local reference.  Returns the action trace together with the guard
state as of the function's return (so with zero workers the deleter has
already fired once, posting the completion to the main dispatcher). -/
def runOnAllThreadsCompletion (inst : InstanceImpl)
    (cb : List (Option α) → List (Option α)) :
    Option (List (BAction α) × GuardState) :=
  if inst.state = State.Shutdown then none
  else
    some (BAction.runMain cb :: inst.registered_threads.map (fun d => BAction.postWorker d cb),
      releaseGuard { count := 1 + inst.registered_threads.length, completionsPosted := 0 })

/-- Model of `InstanceImpl::allocateSlot()`: fatal if Shutdown.  If
`free_slot_indexes_` is empty, a new slot is bound to index
`slots_.size()` and appended; otherwise the front (oldest freed) index is
popped and the new slot bound to it (fatal if that index is out of
range of `slots_`). -/
def allocateSlot (inst : InstanceImpl) : Option (InstanceImpl × SlotImpl) :=
  if inst.state = State.Shutdown then none
  else
    if inst.free_slot_indexes = [] then
      let slot : SlotImpl := { id := inst.nextId, index := inst.slots.length }
      some ({ inst with
                slots := inst.slots ++ [some slot]
                nextId := inst.nextId + 1 },
            slot)
    else
      let idx := inst.free_slot_indexes.headI
      let rest := inst.free_slot_indexes.tail
      if idx < inst.slots.length then
        let slot : SlotImpl := { id := inst.nextId, index := idx }
        some ({ inst with
                  free_slot_indexes := rest
                  slots := inst.slots.set idx (some slot)
                  nextId := inst.nextId + 1 },
              slot)
      else none

/-- Model of `InstanceImpl::removeSlot(slot)`: no-op while Shutdown (workers have
exited; nothing is posted).  Otherwise clears `slots_[index]`, fatally
asserts `index` is not already in `free_slot_indexes_`, appends it, and
broadcasts via the fire-and-forget `runOnAllThreads` a callback clearing
the executing thread's cell at `index` (see `clearCell`).  Returns the
updated registry and the broadcast's action trace (empty for the
Shutdown no-op). -/
def removeSlot (inst : InstanceImpl) (slot : SlotImpl) :
    Option (InstanceImpl × List (BAction α)) :=
  if inst.state = State.Shutdown then some (inst, [])
  else
    if slot.index ∈ inst.free_slot_indexes then none
    else
      let inst' := { inst with
                       slots := inst.slots.set slot.index none
                       free_slot_indexes := inst.free_slot_indexes ++ [slot.index] }
      (runOnAllThreads inst' (clearCell slot.index)).map (fun tr => (inst', tr))

/-- Model of `InstanceImpl::registerThread(dispatcher, main_thread)`: fatal if
Shutdown.  A main registration records the main dispatcher; a worker
registration fatally asserts the dispatcher is not already registered and
appends it. -/
def registerThread (inst : InstanceImpl) (dispatcher : Nat) (main_thread : Bool) :
    Option InstanceImpl :=
  if inst.state = State.Shutdown then none
  else
    if main_thread then some { inst with main_dispatcher := some dispatcher }
    else
      if dispatcher ∈ inst.registered_threads then none
      else some { inst with registered_threads := inst.registered_threads ++ [dispatcher] }

/-- Model of `InstanceImpl::startGlobalThreading()`: fatal unless Initializing;
moves the state to Running. -/
def startGlobalThreading (inst : InstanceImpl) : Option InstanceImpl :=
  if inst.state = State.Initializing then some { inst with state := State.Running }
  else none

/-- Model of `InstanceImpl::shutdownGlobalThreading()`: fatal if already Shutdown;
moves the state to Shutdown. -/
def shutdownGlobalThreading (inst : InstanceImpl) : Option InstanceImpl :=
  if inst.state = State.Shutdown then none
  else some { inst with state := State.Shutdown }

/-- Model of `InstanceImpl::SlotImpl::currentThreadRegistered()`: the executing
thread's cell vector extends past this slot's index. -/
def SlotImpl.currentThreadRegistered (slot : SlotImpl) (data : List (Option α)) : Bool :=
  decide (slot.index < data.length)

/-- Model of `InstanceImpl::SlotImpl::get()`: fatally asserts
`currentThreadRegistered()`, then returns the executing thread's cell at
the slot's index (a possibly-null shared pointer). -/
def SlotImpl.get (slot : SlotImpl) (data : List (Option α)) : Option (Option α) :=
  if h : slot.index < data.length then some (data.get ⟨slot.index, h⟩) else none

/-- Model of `InstanceImpl::SlotImpl::set(cb)`: fatal if Shutdown (and when the
main dispatcher was never registered, where the C++ would dereference a
null `main_thread_dispatcher_`).  For each registered worker dispatcher
`d`, posts a (liveness-token-wrapped) callback whose effect on that
worker's cells is `setThreadLocal index (cb d)`; then handles the main
thread synchronously, storing `cb main_dispatcher` in the calling
thread's cells.  Returns the posted (dispatcher, effect) pairs in post
order together with the updated main-thread cells. -/
def SlotImpl.set (slot : SlotImpl) (inst : InstanceImpl) (cb : Nat → Option α)
    (mainData : List (Option α)) :
    Option (List (Nat × (List (Option α) → List (Option α))) × List (Option α)) :=
  if inst.state = State.Shutdown then none
  else
    match inst.main_dispatcher with
    | none => none
    | some md =>
      some (inst.registered_threads.map
              (fun d => (d, fun data => setThreadLocal slot.index (cb d) data)),
        setThreadLocal slot.index (cb md) mainData)

/-- Indices reset by `shutdownThread`'s reverse-iterator loop over a cell
vector of length `n`, in execution order: highest index first. -/
def resetOrder : Nat → List Nat
  | 0 => []
  | n + 1 => n :: resetOrder n

/-- Model of `InstanceImpl::shutdownThread()`: fatally asserts the state is
Shutdown; resets the executing thread's cells one by one in reverse
index order (`rbegin` to `rend`), then clears the vector.  Returns the
list of indices in the order their cells were reset, together with the
final (empty) cell vector. -/
def shutdownThread (inst : InstanceImpl) (data : List (Option α)) :
    Option (List Nat × List (Option α)) :=
  if inst.state = State.Shutdown then some (resetOrder data.length, [])
  else none

/-! ### The slot liveness token

`SlotImpl::still_alive_` is a `std::shared_ptr<bool>` with a custom
deleter.  `wrapCallback` copies it into every callback posted through the
slot, so the use count is (pending wrapped callbacks) + (1 if the handle
still holds its own reference).  The deleter runs when the count reaches
zero; if the registry is Running at that moment it takes `shutdown_mutex_`
and sets `ready_to_destroy_`.  `~SlotImpl` first resets its own
reference, then — only when Running — blocks on
`shutdown_mutex_.Await(absl::Condition(&ready_to_destroy_))` before
calling `parent_.removeSlot(*this)`. -/

/-- State of one slot's liveness token: `pending` wrapped callbacks still
queued or executing, whether the handle still holds its reference, and
the `ready_to_destroy_` flag set by the token's deleter. -/
structure TokenState where
  pending : Nat
  handleRef : Bool
  readyToDestroy : Bool
deriving DecidableEq, Repr

/-- The shared-pointer use count of the liveness token. -/
def TokenState.refCount (t : TokenState) : Nat :=
  t.pending + (if t.handleRef then 1 else 0)

/-- A wrapped callback finishing (its copy of the token is destroyed):
the count drops by one, and if it reaches zero while the registry is
Running, the deleter sets `ready_to_destroy_`. -/
def finishCallback (st : State) (t : TokenState) : TokenState :=
  let t' : TokenState := { t with pending := t.pending - 1 }
  { t' with readyToDestroy :=
      if t'.refCount = 0 ∧ st = State.Running then true else t.readyToDestroy }

/-- Model of `still_alive_.reset()` at the top of `~SlotImpl`: the handle drops its
reference; if the count reaches zero while Running, the deleter sets
`ready_to_destroy_`. -/
def dropHandleRef (st : State) (t : TokenState) : TokenState :=
  let t' : TokenState := { t with handleRef := false }
  { t' with readyToDestroy :=
      if t'.refCount = 0 ∧ st = State.Running then true else t.readyToDestroy }

/-- Execution of `k` wrapped callbacks finishing, one after the other. -/
def finishCallbacks (st : State) : Nat → TokenState → TokenState
  | 0, t => t
  | k + 1, t => finishCallbacks st k (finishCallback st t)

/-- The point in `~SlotImpl` after the conditional wait: reached
immediately when the state is not Running, and otherwise only once
`ready_to_destroy_` is true.  `removeSlot` is invoked exactly when this
holds. -/
def destructorUnblocked (st : State) (t : TokenState) : Prop :=
  st ≠ State.Running ∨ t.readyToDestroy = true

instance (st : State) (t : TokenState) : Decidable (destructorUnblocked st t) := by
  unfold destructorUnblocked; infer_instance

/-! ### Operation-level view of the registry

Used for the lifecycle-monotonicity and allocate/remove-invariant claims:
a registry paired with the set of live (not yet destroyed) slot handles,
and the main-thread operations as a step function. -/

/-- Modelled from the spec: the freshly constructed registry (the
constructor lives in `thread_local_impl.h`, which is not part of the
source here).  The spec fixes the initial lifecycle state to Initializing
and all bookkeeping containers start empty. -/
def initialRegistry : InstanceImpl :=
  { state := State.Initializing
    slots := []
    free_slot_indexes := []
    registered_threads := []
    main_dispatcher := none
    nextId := 0 }

/-- A registry together with the live slot handles (allocated and not yet
destroyed), newest first. -/
structure RegState where
  inst : InstanceImpl
  live : List SlotImpl
deriving DecidableEq, Repr

/-- A main-thread slot operation: allocate a new slot, or destroy the
live handle with the given identity (which runs `removeSlot`). -/
inductive SlotOp where
  | alloc : SlotOp
  | destroy : Nat → SlotOp
deriving DecidableEq, Repr

/-- One allocate/destroy step.  `destroy i` requires a live handle with
identity `i`; destroying it removes it from the live set and calls
`removeSlot` (the broadcast trace is discarded here). -/
def runSlotOp (op : SlotOp) (rs : RegState) : Option RegState :=
  match op with
  | .alloc =>
    (allocateSlot rs.inst).map (fun p => { inst := p.1, live := p.2 :: rs.live })
  | .destroy i =>
    match rs.live.find? (fun s => s.id == i) with
    | none => none
    | some s =>
      (removeSlot (α := Unit) rs.inst s).map
        (fun p => { inst := p.1, live := rs.live.filter (fun t => t.id ≠ i) })

/-- A sequence of allocate/destroy steps, first operation first. -/
def runSlotOps : List SlotOp → RegState → Option RegState
  | [], rs => some rs
  | op :: ops, rs => (runSlotOp op rs).bind (runSlotOps ops)

/-- Any main-thread registry operation, for lifecycle claims. -/
inductive RegOp where
  | allocOp : RegOp
  | removeOp : SlotImpl → RegOp
  | registerOp : Nat → Bool → RegOp
  | startOp : RegOp
  | shutdownOp : RegOp
deriving DecidableEq, Repr

/-- The registry after one operation (fatal asserts give `none`). -/
def applyRegOp (op : RegOp) (inst : InstanceImpl) : Option InstanceImpl :=
  match op with
  | .allocOp => (allocateSlot inst).map Prod.fst
  | .removeOp s => (removeSlot (α := Unit) inst s).map Prod.fst
  | .registerOp d m => registerThread inst d m
  | .startOp => startGlobalThreading inst
  | .shutdownOp => shutdownGlobalThreading inst

/-- The bookkeeping invariant of the registry, relating the free list,
the back-pointer vector `slots_`, and the live handles. -/
structure RegInv (rs : RegState) : Prop where
  freeNull : ∀ i ∈ rs.inst.free_slot_indexes, rs.inst.slots[i]? = some none
  slotLive : ∀ (i : Nat) (s : SlotImpl), rs.inst.slots[i]? = some (some s) →
    s.index = i ∧ s ∈ rs.live
  liveSlot : ∀ s ∈ rs.live, rs.inst.slots[s.index]? = some (some s)
  freeNodup : rs.inst.free_slot_indexes.Nodup
  idFresh : ∀ s ∈ rs.live, s.id < rs.inst.nextId
  idNodup : (rs.live.map SlotImpl.id).Nodup

/-! ### Helper lemmas -/

theorem length_setThreadLocal (index : Nat) (obj : Option α) (data : List (Option α)) :
    (setThreadLocal index obj data).length = max data.length (index + 1) := by
  simp only [setThreadLocal, List.length_set]
  split
  · simp only [List.length_append, List.length_replicate]
    rw [Nat.max_def]
    split <;> omega
  · rw [Nat.max_def]
    split <;> omega

theorem setThreadLocal_self (index : Nat) (obj : Option α) (data : List (Option α)) :
    (setThreadLocal index obj data)[index]? = some obj := by
  simp only [setThreadLocal]
  split
  · next h =>
    rw [List.getElem?_set_self]
    simp only [List.length_append, List.length_replicate]
    omega
  · next h =>
    rw [List.getElem?_set_self]
    omega

theorem setThreadLocal_other (index : Nat) (obj : Option α) (data : List (Option α))
    (j : Nat) (hj : j < data.length) (hne : j ≠ index) :
    (setThreadLocal index obj data)[j]? = data[j]? := by
  simp only [setThreadLocal]
  split
  · rw [List.getElem?_set_ne (fun h => hne h.symm), List.getElem?_append_left hj]
  · rw [List.getElem?_set_ne (fun h => hne h.symm)]

theorem setThreadLocal_new (index : Nat) (obj : Option α) (data : List (Option α))
    (j : Nat) (h1 : data.length ≤ j) (h2 : j < index) :
    (setThreadLocal index obj data)[j]? = some none := by
  simp only [setThreadLocal]
  have hle : data.length ≤ index := le_of_lt (lt_of_le_of_lt h1 h2)
  rw [if_pos hle, List.getElem?_set_ne (by omega), List.getElem?_append_right h1,
    List.getElem?_replicate]
  rw [if_pos (by omega)]

/-! ### Claim theorems -/

/-- C10: `setThreadLocal(index, object)` grows the executing thread's
cell vector to exactly `index + 1` entries when it was shorter (new cells
null), stores `object` at `index`, leaves every other pre-existing cell
unchanged, and never shrinks the vector. -/
theorem c10_setThreadLocal_frame (α : Type) (index : Nat) (obj : Option α)
    (data : List (Option α)) :
    (setThreadLocal index obj data).length = max data.length (index + 1)
    ∧ (data.length ≤ index → (setThreadLocal index obj data).length = index + 1)
    ∧ (setThreadLocal index obj data)[index]? = some obj
    ∧ (∀ j, j < data.length → j ≠ index →
        (setThreadLocal index obj data)[j]? = data[j]?)
    ∧ (∀ j, data.length ≤ j → j < index →
        (setThreadLocal index obj data)[j]? = some none)
    ∧ data.length ≤ (setThreadLocal index obj data).length := by
  refine ⟨length_setThreadLocal index obj data, ?_,
    setThreadLocal_self index obj data,
    fun j hj hne => setThreadLocal_other index obj data j hj hne,
    fun j h1 h2 => setThreadLocal_new index obj data j h1 h2, ?_⟩
  · intro h
    rw [length_setThreadLocal, Nat.max_def]
    split <;> omega
  · rw [length_setThreadLocal]
    exact Nat.le_max_left _ _

/-- Witness for C10 at a concrete input: writing index 3 into a
two-cell vector. -/
theorem c10_setThreadLocal_frame_witness :
    (setThreadLocal 3 (some 7) [some 1, none]).length = max 2 4
    ∧ (2 ≤ 3 → (setThreadLocal 3 (some 7) [some 1, none]).length = 4)
    ∧ (setThreadLocal 3 (some 7) [some 1, none])[3]? = some (some 7)
    ∧ (∀ j, j < 2 → j ≠ 3 →
        (setThreadLocal 3 (some 7) [some 1, none])[j]? = [some 1, none][j]?)
    ∧ (∀ j, 2 ≤ j → j < 3 →
        (setThreadLocal 3 (some 7) [some 1, none])[j]? = some none)
    ∧ 2 ≤ (setThreadLocal 3 (some 7) [some 1, none]).length :=
  c10_setThreadLocal_frame Nat 3 (some 7) [some 1, none]

theorem chain_resetOrder (n : Nat) :
    List.Chain' (fun a b => b < a) (resetOrder n) := by
  induction n with
  | zero => exact List.chain'_nil
  | succ m ih =>
    cases m with
    | zero => simp [resetOrder]
    | succ k =>
      rw [resetOrder, resetOrder, List.chain'_cons]
      exact ⟨Nat.lt_succ_self _, by rw [resetOrder] at ih; exact ih⟩

theorem mem_resetOrder (n i : Nat) : i ∈ resetOrder n ↔ i < n := by
  induction n with
  | zero => simp [resetOrder]
  | succ m ih =>
    rw [resetOrder, List.mem_cons, ih]
    omega

/-- C9: `shutdownThread()` fatally requires the Shutdown state; it resets
the calling thread's cells in strictly descending index order (each index
below the vector's length appears in the reset order, higher indices
first) and leaves the thread's cell vector empty. -/
theorem c9_shutdownThread_reverse_order (α : Type) (inst : InstanceImpl)
    (data : List (Option α)) :
    (inst.state = State.Shutdown →
      ∃ order, shutdownThread inst data = some (order, ([] : List (Option α)))
        ∧ List.Chain' (fun a b => b < a) order
        ∧ (∀ i, i ∈ order ↔ i < data.length))
    ∧ (inst.state ≠ State.Shutdown → shutdownThread inst data = none) := by
  constructor
  · intro hs
    refine ⟨resetOrder data.length, ?_, chain_resetOrder _, fun i => mem_resetOrder _ i⟩
    rw [shutdownThread, if_pos hs]
  · intro hs
    rw [shutdownThread, if_neg hs]

/-- Witness for C9: a Shutdown-state registry and a three-cell vector. -/
theorem c9_shutdownThread_reverse_order_witness :
    ∃ order,
      shutdownThread ⟨State.Shutdown, [], [], [], none, 0⟩
        [some 4, none, some 6] = some (order, ([] : List (Option Nat)))
        ∧ List.Chain' (fun a b => b < a) order
        ∧ (∀ i, i ∈ order ↔ i < [some 4, none, some 6].length) :=
  (c9_shutdownThread_reverse_order Nat _ [some 4, none, some 6]).1 rfl

/-- C4: `allocateSlot()` is fatal while Shutdown; with an empty free list
it binds a fresh handle to index `slots_.size()` and appends it; with a
non-empty free list it pops the front (oldest freed) index and binds the
fresh handle to it. -/
theorem c4_allocateSlot_reuse (inst : InstanceImpl) :
    (inst.state = State.Shutdown → allocateSlot inst = none)
    ∧ (inst.state ≠ State.Shutdown → inst.free_slot_indexes = [] →
        ∃ inst' slot, allocateSlot inst = some (inst', slot)
          ∧ slot.index = inst.slots.length
          ∧ inst'.slots = inst.slots ++ [some slot]
          ∧ inst'.free_slot_indexes = []
          ∧ inst'.state = inst.state)
    ∧ (∀ idx rest, inst.state ≠ State.Shutdown →
        inst.free_slot_indexes = idx :: rest → idx < inst.slots.length →
        ∃ inst' slot, allocateSlot inst = some (inst', slot)
          ∧ slot.index = idx
          ∧ inst'.free_slot_indexes = rest
          ∧ inst'.slots = inst.slots.set idx (some slot)
          ∧ inst'.state = inst.state) := by
  refine ⟨fun hs => ?_, fun hs hf => ?_, fun idx rest hs hf hlt => ?_⟩
  · rw [allocateSlot, if_pos hs]
  · exact ⟨{ inst with slots := inst.slots ++ [some ⟨inst.nextId, inst.slots.length⟩],
                       nextId := inst.nextId + 1 },
      ⟨inst.nextId, inst.slots.length⟩,
      by rw [allocateSlot, if_neg hs, if_pos hf], rfl, rfl, hf, rfl⟩
  · have hne : inst.free_slot_indexes ≠ [] := by rw [hf]; exact List.cons_ne_nil _ _
    have hhead : inst.free_slot_indexes.headI = idx := by rw [hf]; rfl
    have htail : inst.free_slot_indexes.tail = rest := by rw [hf]; rfl
    refine ⟨{ inst with free_slot_indexes := rest,
                        slots := inst.slots.set idx (some ⟨inst.nextId, idx⟩),
                        nextId := inst.nextId + 1 },
      ⟨inst.nextId, idx⟩, ?_, rfl, rfl, rfl, rfl⟩
    rw [allocateSlot, if_neg hs, if_neg hne, hhead, htail, if_pos hlt]

/-- Witness for C4: reuse of freed index 0 from a registry whose free
list is `[0]`. -/
theorem c4_allocateSlot_reuse_witness :
    ∃ inst' slot,
      allocateSlot ⟨State.Running, [none, some ⟨0, 1⟩], [0], [], none, 1⟩
        = some (inst', slot)
        ∧ slot.index = 0
        ∧ inst'.free_slot_indexes = []
        ∧ inst'.slots = [none, some ⟨0, 1⟩].set 0 (some slot)
        ∧ inst'.state = State.Running :=
  (c4_allocateSlot_reuse _).2.2 0 [] (by decide) rfl (by decide)

theorem allocateSlot_state (inst inst' : InstanceImpl) (slot : SlotImpl)
    (h : allocateSlot inst = some (inst', slot)) : inst'.state = inst.state := by
  unfold allocateSlot at h
  split at h
  · simp at h
  · split at h
    · simp only [Option.some.injEq, Prod.mk.injEq] at h
      rw [← h.1]
    · dsimp only at h
      split at h
      · simp only [Option.some.injEq, Prod.mk.injEq] at h
        rw [← h.1]
      · simp at h

theorem removeSlot_state (α : Type) (inst inst' : InstanceImpl) (slot : SlotImpl)
    (tr : List (BAction α)) (h : removeSlot inst slot = some (inst', tr)) :
    inst'.state = inst.state := by
  unfold removeSlot at h
  split at h
  · simp only [Option.some.injEq, Prod.mk.injEq] at h
    rw [← h.1]
  · split at h
    · simp at h
    · unfold runOnAllThreads at h
      dsimp only at h
      split at h
      · simp at h
      · simp only [Option.map_some', Option.some.injEq, Prod.mk.injEq] at h
        rw [← h.1]

theorem registerThread_state (inst inst' : InstanceImpl) (d : Nat) (m : Bool)
    (h : registerThread inst d m = some inst') : inst'.state = inst.state := by
  unfold registerThread at h
  split at h
  · simp at h
  · split at h
    · simp only [Option.some.injEq] at h
      rw [← h]
    · split at h
      · simp at h
      · simp only [Option.some.injEq] at h
        rw [← h]

/-- C7: the lifecycle only moves forward.  `startGlobalThreading` fatally
requires Initializing and yields Running; `shutdownGlobalThreading`
fatally requires non-Shutdown and yields the terminal Shutdown; every
registry operation's resulting state ranks at least as high as the input
state; and while Shutdown, `allocateSlot`, `registerThread`, and both
`runOnAllThreads` broadcast forms are fatal. -/
theorem c7_lifecycle_monotone :
    (∀ inst inst', startGlobalThreading inst = some inst' →
        inst.state = State.Initializing ∧ inst'.state = State.Running)
    ∧ (∀ inst, inst.state ≠ State.Initializing → startGlobalThreading inst = none)
    ∧ (∀ inst inst', shutdownGlobalThreading inst = some inst' →
        inst.state ≠ State.Shutdown ∧ inst'.state = State.Shutdown)
    ∧ (∀ inst, inst.state = State.Shutdown → shutdownGlobalThreading inst = none)
    ∧ (∀ op inst inst', applyRegOp op inst = some inst' →
        inst.state.rank ≤ inst'.state.rank)
    ∧ (∀ inst, inst.state = State.Shutdown →
        allocateSlot inst = none
        ∧ (∀ d m, registerThread inst d m = none)
        ∧ (∀ (α : Type) (cb : List (Option α) → List (Option α)),
            runOnAllThreads inst cb = none)
        ∧ (∀ (α : Type) (cb : List (Option α) → List (Option α)),
            runOnAllThreadsCompletion inst cb = none)) := by
  refine ⟨fun inst inst' h => ?_, fun inst hs => ?_, fun inst inst' h => ?_,
    fun inst hs => ?_, fun op inst inst' h => ?_, fun inst hs => ?_⟩
  · unfold startGlobalThreading at h
    split at h
    · next hi => simp only [Option.some.injEq] at h; exact ⟨hi, by rw [← h]⟩
    · simp at h
  · rw [startGlobalThreading, if_neg hs]
  · unfold shutdownGlobalThreading at h
    split at h
    · simp at h
    · next hn => simp only [Option.some.injEq] at h; exact ⟨hn, by rw [← h]⟩
  · rw [shutdownGlobalThreading, if_pos hs]
  · cases op with
    | allocOp =>
      simp only [applyRegOp, Option.map_eq_some'] at h
      obtain ⟨⟨i2, s⟩, h1, h2⟩ := h
      rw [← h2, allocateSlot_state inst i2 s h1]
    | removeOp s =>
      simp only [applyRegOp, Option.map_eq_some'] at h
      obtain ⟨⟨i2, tr⟩, h1, h2⟩ := h
      rw [← h2, removeSlot_state Unit inst i2 s tr h1]
    | registerOp d m =>
      simp only [applyRegOp] at h
      rw [registerThread_state inst inst' d m h]
    | startOp =>
      simp only [applyRegOp] at h
      unfold startGlobalThreading at h
      split at h
      · next hi =>
        simp only [Option.some.injEq] at h
        rw [← h, hi]
        show State.Initializing.rank ≤ State.Running.rank
        decide
      · simp at h
    | shutdownOp =>
      simp only [applyRegOp] at h
      unfold shutdownGlobalThreading at h
      split at h
      · simp at h
      · simp only [Option.some.injEq] at h
        rw [← h]
        show inst.state.rank ≤ State.Shutdown.rank
        cases inst.state <;> decide
  · exact ⟨by rw [allocateSlot, if_pos hs],
      fun d m => by rw [registerThread, if_pos hs],
      fun α cb => by rw [runOnAllThreads, if_pos hs],
      fun α cb => by rw [runOnAllThreadsCompletion, if_pos hs]⟩

/-- Witness for C7: the Initializing-to-Running transition is a rank
increase, and allocation is fatal once Shutdown. -/
theorem c7_lifecycle_monotone_witness :
    (⟨State.Initializing, [], [], [], none, 0⟩ : InstanceImpl).state.rank ≤
      (⟨State.Running, [], [], [], none, 0⟩ : InstanceImpl).state.rank
    ∧ allocateSlot ⟨State.Shutdown, [], [], [], none, 0⟩ = none :=
  ⟨c7_lifecycle_monotone.2.2.2.2.1 RegOp.startOp
      ⟨State.Initializing, [], [], [], none, 0⟩
      ⟨State.Running, [], [], [], none, 0⟩ rfl,
    (c7_lifecycle_monotone.2.2.2.2.2 ⟨State.Shutdown, [], [], [], none, 0⟩ rfl).1⟩

/-- C2 as stated is false on the code: the fire-and-forget
`runOnAllThreads(cb)` posts to the workers first and only then runs `cb()`
on the main thread, so with one registered worker the main-thread run is
not the first action of the broadcast. -/
theorem c2_counterexample_posts_precede_main :
    ∃ tr, runOnAllThreads (α := Nat) ⟨State.Running, [], [], [37], none, 0⟩ id
        = some tr
      ∧ tr.head? ≠ some (BAction.runMain id) := by
  refine ⟨[BAction.postWorker 37 id, BAction.runMain id], rfl, ?_⟩
  simp

/-- C2 amended: the fire-and-forget `runOnAllThreads(cb)` (fatal once
Shutdown) posts `cb` to every registered worker dispatcher first, in
registration order, and then runs `cb` synchronously on the main thread
as the last action; there is no completion notification. -/
theorem c2_runOnAllThreads_posts_then_main (α : Type) (inst : InstanceImpl)
    (cb : List (Option α) → List (Option α)) (h : inst.state ≠ State.Shutdown) :
    ∃ tr, runOnAllThreads inst cb = some tr
      ∧ tr = inst.registered_threads.map (fun d => BAction.postWorker d cb)
          ++ [BAction.runMain cb]
      ∧ (∀ d ∈ inst.registered_threads, BAction.postWorker d cb ∈ tr)
      ∧ tr.getLast? = some (BAction.runMain cb)
      ∧ (∀ a ∈ tr.dropLast, a.isPostWorker = true) := by
  refine ⟨inst.registered_threads.map (fun d => BAction.postWorker d cb)
      ++ [BAction.runMain cb], by rw [runOnAllThreads, if_neg h], rfl, ?_, ?_, ?_⟩
  · intro d hd
    exact List.mem_append_left _ (List.mem_map_of_mem _ hd)
  · exact List.getLast?_concat _
  · intro a ha
    rw [List.dropLast_concat] at ha
    obtain ⟨d, _, rfl⟩ := List.mem_map.mp ha
    rfl

/-- Witness for C2 (amended): one registered worker. -/
theorem c2_runOnAllThreads_posts_then_main_witness :
    runOnAllThreads (α := Nat) ⟨State.Running, [], [], [37], none, 0⟩ id
      = some [BAction.postWorker 37 id, BAction.runMain id] := by
  obtain ⟨tr, htr, heq, -, -, -⟩ :=
    c2_runOnAllThreads_posts_then_main Nat ⟨State.Running, [], [], [37], none, 0⟩ id
      (by decide)
  rw [htr, heq]
  rfl

theorem releaseGuard_one_plus (n : Nat) :
    releaseGuard ⟨1 + n, 0⟩ = ⟨n, if n = 0 then 1 else 0⟩ := by
  have h1 : 1 + n - 1 = n := by omega
  simp only [releaseGuard, h1]

theorem runWorkers_completions (k : Nat) :
    ∀ m : Nat, k ≤ m →
      runWorkers k ⟨m, if m = 0 then 1 else 0⟩ = ⟨m - k, if m - k = 0 then 1 else 0⟩ := by
  induction k with
  | zero => intro m _; rfl
  | succ p ih =>
    intro m hm
    obtain ⟨m', rfl⟩ : ∃ m', m = m' + 1 := ⟨m - 1, by omega⟩
    rw [runWorkers]
    have e : releaseGuard ⟨m' + 1, if m' + 1 = 0 then 1 else 0⟩
        = ⟨m', if m' = 0 then 1 else 0⟩ := by
      simp [releaseGuard]
    rw [e, ih m' (by omega)]
    have h2 : m' + 1 - (p + 1) = m' - p := by omega
    rw [h2]

/-- C1: the with-completion `runOnAllThreads(cb, completion)` (fatal once
Shutdown) runs `cb()` on the main thread as the first action, before any
worker copy is posted; each registered worker is posted a copy; at the
function's return the guard holds one reference per posted worker copy
(the local reference has been released, so with zero workers the deleter
has already posted the completion to the main dispatcher exactly once);
and after `k` of the `n` worker copies have executed, the completion has
been posted to the main dispatcher exactly once if `k = n` and not at all
otherwise. -/
theorem c1_completion_after_all_workers (α : Type) (inst : InstanceImpl)
    (cb : List (Option α) → List (Option α)) (h : inst.state ≠ State.Shutdown) :
    (∃ tr g, runOnAllThreadsCompletion inst cb = some (tr, g)
      ∧ tr.head? = some (BAction.runMain cb)
      ∧ (∀ a ∈ tr.tail, a.isPostWorker = true)
      ∧ (∀ d ∈ inst.registered_threads, BAction.postWorker d cb ∈ tr)
      ∧ g = ⟨inst.registered_threads.length,
              if inst.registered_threads.length = 0 then 1 else 0⟩)
    ∧ (∀ k, k ≤ inst.registered_threads.length →
        (runWorkers k (releaseGuard ⟨1 + inst.registered_threads.length, 0⟩)).completionsPosted
          = if k = inst.registered_threads.length then 1 else 0) := by
  constructor
  · refine ⟨BAction.runMain cb ::
        inst.registered_threads.map (fun d => BAction.postWorker d cb),
      releaseGuard ⟨1 + inst.registered_threads.length, 0⟩,
      by rw [runOnAllThreadsCompletion, if_neg h], rfl, ?_, ?_,
      releaseGuard_one_plus _⟩
    · intro a ha
      rw [List.tail_cons] at ha
      obtain ⟨d, _, rfl⟩ := List.mem_map.mp ha
      rfl
    · intro d hd
      exact List.mem_cons_of_mem _ (List.mem_map_of_mem _ hd)
  · intro k hk
    rw [releaseGuard_one_plus, runWorkers_completions k _ hk]
    by_cases hkn : k = inst.registered_threads.length
    · rw [if_pos (by omega), if_pos hkn]
    · rw [if_neg (by omega), if_neg hkn]

/-- Witness for C1: two registered workers; the completion is unposted
after one worker has run its copy and posted exactly once after both
have. -/
theorem c1_completion_after_all_workers_witness :
    (runWorkers 1 (releaseGuard
        ⟨1 + (⟨State.Running, [], [], [5, 7], some 0, 0⟩ :
            InstanceImpl).registered_threads.length, 0⟩)).completionsPosted = 0
    ∧ (runWorkers 2 (releaseGuard
        ⟨1 + (⟨State.Running, [], [], [5, 7], some 0, 0⟩ :
            InstanceImpl).registered_threads.length, 0⟩)).completionsPosted = 1 :=
  ⟨((c1_completion_after_all_workers Nat ⟨State.Running, [], [], [5, 7], some 0, 0⟩
        id (by decide)).2 1 (by decide)).trans (by decide),
    ((c1_completion_after_all_workers Nat ⟨State.Running, [], [], [5, 7], some 0, 0⟩
        id (by decide)).2 2 (by decide)).trans (by decide)⟩

theorem dropHandleRef_running (p : Nat) :
    dropHandleRef State.Running ⟨p, true, false⟩ = ⟨p, false, decide (p = 0)⟩ := by
  by_cases hp : p = 0
  · subst hp; rfl
  · simp only [dropHandleRef, TokenState.refCount]
    rw [if_neg (by simpa using hp)]
    simp [hp]

theorem finishCallbacks_running (k : Nat) :
    ∀ p : Nat, k ≤ p →
      finishCallbacks State.Running k ⟨p, false, decide (p = 0)⟩
        = ⟨p - k, false, decide (p - k = 0)⟩ := by
  induction k with
  | zero => intro p _; rfl
  | succ j ih =>
    intro p hp
    obtain ⟨p', rfl⟩ : ∃ p', p = p' + 1 := ⟨p - 1, by omega⟩
    rw [finishCallbacks]
    have e : finishCallback State.Running ⟨p' + 1, false, decide (p' + 1 = 0)⟩
        = ⟨p', false, decide (p' = 0)⟩ := by
      simp only [finishCallback, TokenState.refCount]
      by_cases hp' : p' = 0 <;> simp [hp']
    rw [e, ih p' (by omega)]
    have h2 : p' + 1 - (j + 1) = p' - j := by omega
    rw [h2]

/-- C3: destroying a slot handle while Running first drops the handle's
own token reference and then blocks until the token deleter has set
`ready_to_destroy_` — which, after the handle's reference is gone and `k`
of the `p` outstanding wrapped callbacks have finished, happens exactly
when `k = p`, i.e. when every callback wrapped with the slot's liveness
token has finished and the reference count has hit zero.  Only then is
`removeSlot` invoked.  Destroying while Initializing or Shutdown never
blocks: the destructor proceeds immediately whatever the token state. -/
theorem c3_destruction_blocks_until_drained :
    (∀ p k : Nat, k ≤ p →
      (destructorUnblocked State.Running
          (finishCallbacks State.Running k
            (dropHandleRef State.Running ⟨p, true, false⟩))
        ↔ k = p))
    ∧ (∀ (st : State) (t : TokenState), st ≠ State.Running →
        destructorUnblocked st (dropHandleRef st t)) := by
  constructor
  · intro p k hk
    rw [dropHandleRef_running, finishCallbacks_running k p hk]
    simp only [destructorUnblocked, ne_eq, not_true_eq_false, false_or,
      decide_eq_true_eq]
    omega
  · intro st t hst
    exact Or.inl hst

/-- Witness for C3: with two outstanding wrapped callbacks the destructor
is unblocked after both have finished, and a Shutdown-state destruction
proceeds immediately. -/
theorem c3_destruction_blocks_until_drained_witness :
    destructorUnblocked State.Running
      (finishCallbacks State.Running 2
        (dropHandleRef State.Running ⟨2, true, false⟩))
    ∧ destructorUnblocked State.Shutdown
        (dropHandleRef State.Shutdown ⟨2, true, false⟩) :=
  ⟨(c3_destruction_blocks_until_drained.1 2 2 (by decide)).mpr rfl,
    c3_destruction_blocks_until_drained.2 State.Shutdown ⟨2, true, false⟩ (by decide)⟩

/-- C5: `removeSlot(slot)` is a bookkeeping no-op with no broadcast while
Shutdown; otherwise it fatally asserts the index is not already in the
free list (duplicate push), clears `slots_[index]`, appends the index to
the free list, and broadcasts to every registered worker plus the main
thread a callback that clears the executing thread's cell at that index
when the cell vector is long enough. -/
theorem c5_removeSlot_clears_and_broadcasts (α : Type) (inst : InstanceImpl)
    (slot : SlotImpl) :
    (inst.state = State.Shutdown → removeSlot (α := α) inst slot = some (inst, []))
    ∧ (inst.state ≠ State.Shutdown → slot.index ∈ inst.free_slot_indexes →
        removeSlot (α := α) inst slot = none)
    ∧ (inst.state ≠ State.Shutdown → slot.index ∉ inst.free_slot_indexes →
        ∃ inst' tr, removeSlot (α := α) inst slot = some (inst', tr)
          ∧ inst'.slots = inst.slots.set slot.index none
          ∧ (slot.index < inst.slots.length → inst'.slots[slot.index]? = some none)
          ∧ inst'.free_slot_indexes = inst.free_slot_indexes ++ [slot.index]
          ∧ (∀ d ∈ inst.registered_threads,
              BAction.postWorker d (clearCell slot.index) ∈ tr)
          ∧ BAction.runMain (clearCell slot.index) ∈ tr
          ∧ (∀ data : List (Option α), clearCell slot.index data
              = if slot.index < data.length then data.set slot.index none else data)) := by
  refine ⟨fun hs => ?_, fun hs hmem => ?_, fun hs hmem => ?_⟩
  · rw [removeSlot, if_pos hs]
  · rw [removeSlot, if_neg hs, if_pos hmem]
  · refine ⟨{ inst with slots := inst.slots.set slot.index none,
                        free_slot_indexes := inst.free_slot_indexes ++ [slot.index] },
      inst.registered_threads.map (fun d => BAction.postWorker d (clearCell slot.index))
        ++ [BAction.runMain (clearCell slot.index)],
      ?_, rfl, ?_, rfl, ?_, ?_, fun _ => rfl⟩
    · rw [removeSlot, if_neg hs, if_neg hmem]
      dsimp only
      rw [runOnAllThreads, if_neg hs]
      rfl
    · intro hlt
      exact List.getElem?_set_self (by simpa using hlt)
    · intro d hd
      exact List.mem_append_left _ (List.mem_map_of_mem _ hd)
    · exact List.mem_append_right _ (List.mem_singleton_self _)

/-- Witness for C5: removing index 0 from a Running registry with one
worker. -/
theorem c5_removeSlot_clears_and_broadcasts_witness :
    ∃ inst' tr,
      removeSlot (α := Nat) ⟨State.Running, [some ⟨0, 0⟩], [], [9], none, 1⟩ ⟨0, 0⟩
        = some (inst', tr)
      ∧ inst'.slots = [some ⟨0, 0⟩].set 0 none
      ∧ (0 < [some (⟨0, 0⟩ : SlotImpl)].length → inst'.slots[0]? = some none)
      ∧ inst'.free_slot_indexes = [] ++ [0]
      ∧ (∀ d ∈ [9], BAction.postWorker d (clearCell 0) ∈ tr)
      ∧ BAction.runMain (clearCell 0) ∈ tr
      ∧ (∀ data : List (Option Nat), clearCell 0 data
          = if 0 < data.length then data.set 0 none else data) :=
  (c5_removeSlot_clears_and_broadcasts Nat
      ⟨State.Running, [some ⟨0, 0⟩], [], [9], none, 1⟩ ⟨0, 0⟩).2.2
    (by decide) (by decide)

theorem get_setThreadLocal_self (slot : SlotImpl) (v : Option α)
    (data : List (Option α)) :
    slot.get (setThreadLocal slot.index v data) = some v := by
  have hlt : slot.index < (setThreadLocal slot.index v data).length := by
    rw [length_setThreadLocal]
    exact lt_of_lt_of_le (Nat.lt_succ_self _) (Nat.le_max_right _ _)
  rw [SlotImpl.get, dif_pos hlt]
  have h1 := setThreadLocal_self slot.index v data
  rw [List.getElem?_eq_getElem hlt] at h1
  rw [List.get_eq_getElem]
  exact h1

/-- C8: `SlotImpl::set(cb)` is fatal once Shutdown; otherwise it posts to
each registered worker dispatcher `d` a wrapped callback whose effect on
that worker's cells is to store `cb d` (the initializer applied to that
worker's dispatcher) at the slot's index, and then synchronously stores
`cb main_dispatcher` in the main thread's cells at the slot's index, so
that immediately after `set` returns, `get()` on the main thread yields
the value the initializer produced for the main dispatcher. -/
theorem c8_set_per_thread_values (α : Type) (inst : InstanceImpl) (slot : SlotImpl)
    (cb : Nat → Option α) (mainData : List (Option α)) (md : Nat) :
    (inst.state = State.Shutdown → slot.set inst cb mainData = none)
    ∧ (inst.state ≠ State.Shutdown → inst.main_dispatcher = some md →
      ∃ posts mainData',
        slot.set inst cb mainData = some (posts, mainData')
        ∧ posts = inst.registered_threads.map
            (fun d => (d, fun data => setThreadLocal slot.index (cb d) data))
        ∧ (∀ d ∈ inst.registered_threads,
            (d, fun data => setThreadLocal slot.index (cb d) data) ∈ posts)
        ∧ mainData' = setThreadLocal slot.index (cb md) mainData
        ∧ slot.get mainData' = some (cb md)) := by
  refine ⟨fun hs => ?_, fun h hmd => ?_⟩
  · rw [SlotImpl.set, if_pos hs]
  · refine ⟨inst.registered_threads.map
        (fun d => (d, fun data => setThreadLocal slot.index (cb d) data)),
      setThreadLocal slot.index (cb md) mainData, ?_, rfl, ?_, rfl,
      get_setThreadLocal_self slot (cb md) mainData⟩
    · rw [SlotImpl.set, if_neg h, hmd]
    · intro d hd
      exact List.mem_map_of_mem _ hd

/-- Witness for C8: one worker (dispatcher 3), main dispatcher 0, and an
initializer returning the dispatcher id; the main thread's `get` yields
the main dispatcher's value right after `set`. -/
theorem c8_set_per_thread_values_witness :
    ∃ posts mainData',
      SlotImpl.set ⟨0, 0⟩ ⟨State.Running, [some ⟨0, 0⟩], [], [3], some 0, 1⟩
          (fun d => some d) [] = some (posts, mainData')
      ∧ posts = [3].map
          (fun d => (d, fun data => setThreadLocal 0 (some d) data))
      ∧ (∀ d ∈ [3], (d, fun data => setThreadLocal 0 (some d) data) ∈ posts)
      ∧ mainData' = setThreadLocal 0 (some 0) []
      ∧ SlotImpl.get ⟨0, 0⟩ mainData' = some (some 0) :=
  (c8_set_per_thread_values Nat ⟨State.Running, [some ⟨0, 0⟩], [], [3], some 0, 1⟩
    ⟨0, 0⟩ (fun d => some d) [] 0).2 (by decide) rfl

theorem allocateSlot_spec (inst inst' : InstanceImpl) (slot : SlotImpl)
    (h : allocateSlot inst = some (inst', slot)) :
    inst.state ≠ State.Shutdown ∧ slot.id = inst.nextId
    ∧ inst'.nextId = inst.nextId + 1 ∧ inst'.state = inst.state
    ∧ ((inst.free_slot_indexes = []
          ∧ slot.index = inst.slots.length
          ∧ inst'.slots = inst.slots ++ [some slot]
          ∧ inst'.free_slot_indexes = [])
      ∨ (∃ rest, inst.free_slot_indexes = slot.index :: rest
          ∧ slot.index < inst.slots.length
          ∧ inst'.slots = inst.slots.set slot.index (some slot)
          ∧ inst'.free_slot_indexes = rest)) := by
  have hstate : inst.state ≠ State.Shutdown := by
    intro hs
    rw [allocateSlot, if_pos hs] at h
    exact Option.noConfusion h
  unfold allocateSlot at h
  rw [if_neg hstate] at h
  by_cases hf : inst.free_slot_indexes = []
  · rw [if_pos hf] at h
    dsimp only at h
    simp only [Option.some.injEq, Prod.mk.injEq] at h
    obtain ⟨h1, h2⟩ := h
    subst h1
    subst h2
    exact ⟨hstate, rfl, rfl, rfl, Or.inl ⟨hf, rfl, rfl, hf⟩⟩
  · rw [if_neg hf] at h
    dsimp only at h
    split at h
    · next hlt =>
      simp only [Option.some.injEq, Prod.mk.injEq] at h
      obtain ⟨h1, h2⟩ := h
      subst h1
      subst h2
      refine ⟨hstate, rfl, rfl, rfl,
        Or.inr ⟨inst.free_slot_indexes.tail, ?_, hlt, rfl, rfl⟩⟩
      cases hc : inst.free_slot_indexes with
      | nil => exact absurd hc hf
      | cons x xs => rfl
    · exact Option.noConfusion h

theorem removeSlot_spec (α : Type) (inst inst' : InstanceImpl) (slot : SlotImpl)
    (tr : List (BAction α)) (h : removeSlot inst slot = some (inst', tr))
    (hs : inst.state ≠ State.Shutdown) :
    slot.index ∉ inst.free_slot_indexes
    ∧ inst'.slots = inst.slots.set slot.index none
    ∧ inst'.free_slot_indexes = inst.free_slot_indexes ++ [slot.index]
    ∧ inst'.nextId = inst.nextId ∧ inst'.state = inst.state := by
  unfold removeSlot at h
  rw [if_neg hs] at h
  split at h
  · simp at h
  · next hmem =>
    dsimp only at h
    rw [runOnAllThreads] at h
    split at h
    · next hcond => exact absurd hcond hs
    · simp only [Option.map_some', Option.some.injEq, Prod.mk.injEq] at h
      obtain ⟨h1, -⟩ := h
      subst h1
      exact ⟨hmem, rfl, rfl, rfl, rfl⟩

theorem regInv_initial (σ : State) :
    RegInv ⟨{ initialRegistry with state := σ }, []⟩ := by
  refine ⟨?_, ?_, ?_, ?_, ?_, ?_⟩ <;> simp [initialRegistry]

theorem runSlotOp_state (op : SlotOp) (rs rs' : RegState)
    (h : runSlotOp op rs = some rs') : rs'.inst.state = rs.inst.state := by
  cases op with
  | alloc =>
    simp only [runSlotOp, Option.map_eq_some'] at h
    obtain ⟨⟨inst1, slot⟩, h1, h2⟩ := h
    subst h2
    exact allocateSlot_state rs.inst inst1 slot h1
  | destroy i =>
    simp only [runSlotOp] at h
    cases hfind : rs.live.find? (fun s => s.id == i) with
    | none => rw [hfind] at h; exact absurd h (by simp)
    | some s =>
      rw [hfind] at h
      simp only [Option.map_eq_some'] at h
      obtain ⟨⟨inst1, tr⟩, h1, h2⟩ := h
      subst h2
      exact removeSlot_state Unit rs.inst inst1 s tr h1

theorem runSlotOp_inv (op : SlotOp) (rs rs' : RegState)
    (hop : runSlotOp op rs = some rs') (hinv : RegInv rs)
    (hs : rs.inst.state ≠ State.Shutdown) : RegInv rs' := by
  cases op with
  | alloc =>
    simp only [runSlotOp, Option.map_eq_some'] at hop
    obtain ⟨⟨inst1, slot⟩, h1, h2⟩ := hop
    subst h2
    obtain ⟨-, hid, hnext, -, hbr⟩ := allocateSlot_spec rs.inst inst1 slot h1
    have hFresh : ∀ s ∈ slot :: rs.live, s.id < inst1.nextId := by
      intro s hsmem
      rw [hnext]
      rcases List.mem_cons.mp hsmem with rfl | hmem
      · rw [hid]; omega
      · have := hinv.idFresh s hmem; omega
    have hIds : ((slot :: rs.live).map SlotImpl.id).Nodup := by
      simp only [List.map_cons]
      rw [List.nodup_cons]
      refine ⟨?_, hinv.idNodup⟩
      intro hmem
      obtain ⟨t, htmem, hteq⟩ := List.mem_map.mp hmem
      have h3 := hinv.idFresh t htmem
      rw [hid] at hteq
      omega
    rcases hbr with ⟨hfree, hidx, hslots, hfree'⟩ | ⟨rest, hfree, hlt, hslots, hfree'⟩
    · refine ⟨?_, ?_, ?_, ?_, hFresh, hIds⟩
      · intro i hi
        rw [hfree'] at hi
        exact absurd hi (List.not_mem_nil i)
      · intro i s hsi
        rw [hslots] at hsi
        rcases Nat.lt_trichotomy i rs.inst.slots.length with hlt | heq | hgt
        · rw [List.getElem?_append_left hlt] at hsi
          obtain ⟨e1, e2⟩ := hinv.slotLive i s hsi
          exact ⟨e1, List.mem_cons_of_mem _ e2⟩
        · subst heq
          rw [List.getElem?_concat_length] at hsi
          simp only [Option.some.injEq] at hsi
          subst hsi
          exact ⟨hidx, List.mem_cons_self _ _⟩
        · rw [List.getElem?_append_right (by omega),
            List.getElem?_eq_none (by simp; omega)] at hsi
          exact Option.noConfusion hsi
      · intro s hsmem
        rcases List.mem_cons.mp hsmem with rfl | hmem
        · rw [hslots, hidx, List.getElem?_concat_length]
        · have e := hinv.liveSlot s hmem
          obtain ⟨hlt, -⟩ := List.getElem?_eq_some.mp e
          rw [hslots, List.getElem?_append_left hlt]
          exact e
      · rw [hfree']
        exact List.nodup_nil
    · have hmemfree : slot.index ∈ rs.inst.free_slot_indexes := by
        rw [hfree]
        exact List.mem_cons_self _ _
      have hslotnull : rs.inst.slots[slot.index]? = some none :=
        hinv.freeNull _ hmemfree
      have hnotrest : slot.index ∉ rest := by
        have h3 := hinv.freeNodup
        rw [hfree] at h3
        exact (List.nodup_cons.mp h3).1
      refine ⟨?_, ?_, ?_, ?_, hFresh, hIds⟩
      · intro i hi
        rw [hfree'] at hi
        have hine : slot.index ≠ i := fun e => hnotrest (e ▸ hi)
        rw [hslots, List.getElem?_set_ne hine]
        exact hinv.freeNull i (by rw [hfree]; exact List.mem_cons_of_mem _ hi)
      · intro i s hsi
        by_cases hie : i = slot.index
        · subst hie
          rw [hslots, List.getElem?_set_self hlt] at hsi
          simp only [Option.some.injEq] at hsi
          subst hsi
          exact ⟨rfl, List.mem_cons_self _ _⟩
        · rw [hslots, List.getElem?_set_ne (fun e => hie e.symm)] at hsi
          obtain ⟨e1, e2⟩ := hinv.slotLive i s hsi
          exact ⟨e1, List.mem_cons_of_mem _ e2⟩
      · intro s hsmem
        rcases List.mem_cons.mp hsmem with rfl | hmem
        · rw [hslots, List.getElem?_set_self hlt]
        · have e := hinv.liveSlot s hmem
          have hne : slot.index ≠ s.index := by
            intro heq
            rw [← heq, hslotnull] at e
            exact Option.noConfusion (Option.some.inj e)
          rw [hslots, List.getElem?_set_ne hne]
          exact e
      · rw [hfree']
        have h3 := hinv.freeNodup
        rw [hfree] at h3
        exact (List.nodup_cons.mp h3).2
  | destroy i =>
    simp only [runSlotOp] at hop
    cases hfind : rs.live.find? (fun s => s.id == i) with
    | none => rw [hfind] at hop; exact absurd hop (by simp)
    | some s =>
      rw [hfind] at hop
      simp only [Option.map_eq_some'] at hop
      obtain ⟨⟨inst1, tr⟩, h1, h2⟩ := hop
      subst h2
      have hsmem : s ∈ rs.live := List.mem_of_find?_eq_some hfind
      have hsid : s.id = i := by simpa using List.find?_some hfind
      obtain ⟨hnotfree, hslots, hfree', hnext, -⟩ :=
        removeSlot_spec Unit rs.inst inst1 s tr h1 hs
      have hsin : rs.inst.slots[s.index]? = some (some s) := hinv.liveSlot s hsmem
      obtain ⟨hslen, -⟩ := List.getElem?_eq_some.mp hsin
      have hidinj := List.inj_on_of_nodup_map hinv.idNodup
      refine ⟨?_, ?_, ?_, ?_, ?_, ?_⟩
      · intro j hj
        rw [hfree'] at hj
        rcases List.mem_append.mp hj with hj1 | hj2
        · by_cases hje : j = s.index
          · subst hje
            rw [hslots, List.getElem?_set_self hslen]
          · rw [hslots, List.getElem?_set_ne (fun e => hje e.symm)]
            exact hinv.freeNull j hj1
        · have hj3 : j = s.index := by simpa using hj2
          subst hj3
          rw [hslots, List.getElem?_set_self hslen]
      · intro j t htj
        have hje : j ≠ s.index := by
          intro e
          subst e
          rw [hslots, List.getElem?_set_self hslen] at htj
          exact Option.noConfusion (Option.some.inj htj)
        rw [hslots, List.getElem?_set_ne (fun e => hje e.symm)] at htj
        obtain ⟨e1, e2⟩ := hinv.slotLive j t htj
        refine ⟨e1, List.mem_filter.mpr ⟨e2, ?_⟩⟩
        have htne : t ≠ s := by
          intro e
          subst e
          exact hje e1.symm
        have hne : t.id ≠ i := fun e => htne (hidinj e2 hsmem (e.trans hsid.symm))
        simpa using hne
      · intro t htmem
        obtain ⟨htl, htp⟩ := List.mem_filter.mp htmem
        have e := hinv.liveSlot t htl
        have hne : s.index ≠ t.index := by
          intro heq
          rw [← heq, hsin] at e
          have h4 : s = t := by simpa using e
          subst h4
          rw [hsid] at htp
          simp at htp
        rw [hslots, List.getElem?_set_ne hne]
        exact e
      · rw [hfree']
        refine List.Nodup.append hinv.freeNodup (List.nodup_singleton _) ?_
        intro a ha hb
        have h5 : a = s.index := by simpa using hb
        subst h5
        exact hnotfree ha
      · intro t htmem
        rw [hnext]
        exact hinv.idFresh t (List.mem_filter.mp htmem).1
      · exact hinv.idNodup.sublist ((List.filter_sublist _).map SlotImpl.id)

theorem runSlotOps_inv (ops : List SlotOp) :
    ∀ rs rs' : RegState, runSlotOps ops rs = some rs' → RegInv rs →
      rs.inst.state ≠ State.Shutdown →
      RegInv rs' ∧ rs'.inst.state = rs.inst.state := by
  induction ops with
  | nil =>
    intro rs rs' h hinv _
    simp only [runSlotOps, Option.some.injEq] at h
    subst h
    exact ⟨hinv, rfl⟩
  | cons op ops ih =>
    intro rs rs' h hinv hs
    simp only [runSlotOps, Option.bind_eq_some] at h
    obtain ⟨rs1, h1, h2⟩ := h
    have hstate1 : rs1.inst.state = rs.inst.state := runSlotOp_state op rs rs1 h1
    have hinv1 := runSlotOp_inv op rs rs1 h1 hinv hs
    have hs1 : rs1.inst.state ≠ State.Shutdown := by rw [hstate1]; exact hs
    obtain ⟨hinv', hst⟩ := ih rs1 rs' h2 hinv1 hs1
    exact ⟨hinv', by rw [hst, hstate1]⟩

/-- C6: after any sequence of allocate/destroy operations from the
initial registry (in any non-Shutdown state), every free-list index has a
null `slots_` entry; every non-null `slots_` entry points to a live
handle whose own index matches its position (hence no two live handles
share an index); and an allocation grows the slot vector only when the
free list is empty. -/
theorem c6_allocation_invariant (σ : State) (hσ : σ ≠ State.Shutdown)
    (ops : List SlotOp) (rs' : RegState)
    (h : runSlotOps ops ⟨{ initialRegistry with state := σ }, []⟩ = some rs') :
    (∀ i ∈ rs'.inst.free_slot_indexes, rs'.inst.slots[i]? = some none)
    ∧ (∀ (i : Nat) (s : SlotImpl), rs'.inst.slots[i]? = some (some s) →
        s.index = i ∧ s ∈ rs'.live)
    ∧ (∀ s ∈ rs'.live, ∀ t ∈ rs'.live, s.index = t.index → s = t)
    ∧ (∀ (inst inst' : InstanceImpl) (slot : SlotImpl),
        allocateSlot inst = some (inst', slot) → inst.free_slot_indexes ≠ [] →
        inst'.slots.length = inst.slots.length) := by
  obtain ⟨hinv, -⟩ := runSlotOps_inv ops _ rs' h (regInv_initial σ) hσ
  refine ⟨hinv.freeNull, hinv.slotLive, ?_, ?_⟩
  · intro s hsmem t htmem heq
    have e1 := hinv.liveSlot s hsmem
    have e2 := hinv.liveSlot t htmem
    rw [heq, e2] at e1
    have h3 : t = s := by simpa using e1
    exact h3.symm
  · intro inst inst' slot hal hne
    obtain ⟨-, -, -, -, hbr⟩ := allocateSlot_spec inst inst' slot hal
    rcases hbr with ⟨hf, -⟩ | ⟨rest, -, -, hslots, -⟩
    · exact absurd hf hne
    · rw [hslots, List.length_set]

/-- Witness for C6: the scenario allocate A (index 0), allocate B (index
1), destroy A, allocate C — C reuses index 0 and the invariant holds of
the final state. -/
theorem c6_allocation_invariant_witness :
    (∀ i ∈ ([] : List Nat), [some (⟨2, 0⟩ : SlotImpl), some ⟨1, 1⟩][i]? = some none)
    ∧ (∀ (i : Nat) (s : SlotImpl),
        [some (⟨2, 0⟩ : SlotImpl), some ⟨1, 1⟩][i]? = some (some s) →
        s.index = i ∧ s ∈ [(⟨2, 0⟩ : SlotImpl), ⟨1, 1⟩])
    ∧ (∀ s ∈ [(⟨2, 0⟩ : SlotImpl), ⟨1, 1⟩], ∀ t ∈ [(⟨2, 0⟩ : SlotImpl), ⟨1, 1⟩],
        s.index = t.index → s = t)
    ∧ (∀ (inst inst' : InstanceImpl) (slot : SlotImpl),
        allocateSlot inst = some (inst', slot) → inst.free_slot_indexes ≠ [] →
        inst'.slots.length = inst.slots.length) :=
  c6_allocation_invariant State.Running (by decide)
    [SlotOp.alloc, SlotOp.alloc, SlotOp.destroy 0, SlotOp.alloc]
    ⟨⟨State.Running, [some ⟨2, 0⟩, some ⟨1, 1⟩], [], [], none, 3⟩,
      [⟨2, 0⟩, ⟨1, 1⟩]⟩ (by decide)

end ThreadLocal
end Envoy
